import Mathlib

/-!
Verification of the YouTubeSubManager subtitle-synchronization engine.

Each definition below is a shallow embedding of a function of the Python
source (`src/cache.py`, `src/quota.py`, `src/utils.py`, `src/file_handler.py`,
`src/project_handler.py`, `src/youtube_api.py`, `src/config.py`).  Python
dicts are modelled as association lists in insertion order (dict keys are
unique; well-formedness hypotheses state this where a proof needs it),
timestamps as integers (seconds), fallible code as `Option`/`Except`, and
I/O boundaries (network responses, file modification times, user input) as
explicit parameters.
-/

/-- A raised Python exception, as the embedded functions can produce
one: `httpError` is the googleapiclient HttpError carrying its status
code; the others are builtin exception classes with their message. -/
inductive PyErr where
  | httpError (status : Nat)
  | typeError (msg : String)
  | valueError (msg : String)
  | unicodeDecodeError
deriving DecidableEq, Repr

namespace Cache

/- ---------------------------------------------------------------------
src/cache.py
--------------------------------------------------------------------- -/

/-- `CACHE_DURATION = timedelta(hours=1)`, in seconds. -/
def CACHE_DURATION : Int := 3600

/-- Total order on keyword-argument pairs used by Python `sorted` on a list
of `(name, value)` tuples: lexicographic on the pair. -/
def pairLe (p q : String × String) : Prop :=
  p.1 < q.1 ∨ (p.1 = q.1 ∧ p.2 ≤ q.2)

instance : DecidableRel pairLe := by
  intro p q
  unfold pairLe
  infer_instance

instance : IsTotal (String × String) pairLe := by
  constructor
  intro p q
  rcases lt_trichotomy p.1 q.1 with h | h | h
  · exact Or.inl (Or.inl h)
  · rcases le_total p.2 q.2 with h2 | h2
    · exact Or.inl (Or.inr ⟨h, h2⟩)
    · exact Or.inr (Or.inr ⟨h.symm, h2⟩)
  · exact Or.inr (Or.inl h)

instance : IsTrans (String × String) pairLe := by
  constructor
  intro p q s hpq hqs
  rcases hpq with h1 | ⟨he1, hv1⟩
  · rcases hqs with h2 | ⟨he2, _⟩
    · exact Or.inl (h1.trans h2)
    · exact Or.inl (he2 ▸ h1)
  · rcases hqs with h2 | ⟨he2, hv2⟩
    · exact Or.inl (he1 ▸ h2)
    · exact Or.inr ⟨he1.trans he2, hv1.trans hv2⟩

instance : IsAntisymm (String × String) pairLe := by
  constructor
  intro p q hpq hqp
  rcases hpq with h1 | ⟨he1, hv1⟩
  · rcases hqp with h2 | ⟨he2, _⟩
    · exact absurd h2 (lt_asymm h1)
    · exact absurd he2 (ne_of_lt h1).symm
  · rcases hqp with h2 | ⟨he2, hv2⟩
    · exact absurd h2 (he1 ▸ lt_irrefl p.1)
    · exact Prod.ext he1 (le_antisymm hv1 hv2)

/-- `sorted(kwargs.items())`: Python sorts the `(name, value)` tuples by the
default lexicographic tuple order.  Under a total antisymmetric order the
sorted permutation is unique, so insertion sort computes the same list as
the CPython sort. -/
def sortKwargs (kwargs : List (String × String)) : List (String × String) :=
  List.insertionSort pairLe kwargs

/-- `json.dumps` of one `(name, value)` tuple (serialized as a JSON array). -/
def dumpsPair (p : String × String) : String :=
  "[\"" ++ p.1 ++ "\", \"" ++ p.2 ++ "\"]"

/-- `json.dumps(sorted_kwargs)`: a JSON array of the serialized pairs. -/
def dumpsPairs (l : List (String × String)) : String :=
  "[" ++ String.intercalate ", " (l.map dumpsPair) ++ "]"

/-- `generate_cache_key(function_name, **kwargs)`.  The md5 hexdigest is an
arbitrary deterministic function of the bytes fed to the hasher
(`function_name` followed by the serialized sorted arguments), passed in as
`md5hex`. -/
def generate_cache_key (md5hex : String → String)
    (function_name : String) (kwargs : List (String × String)) : String :=
  md5hex (function_name ++ dumpsPairs (sortKwargs kwargs))

/-- What `get_from_cache` finds on disk for a key, one constructor per
way the stored file can be shaped, labelled by the exception its
processing raises in the source (the except tuple there lists only
`json.JSONDecodeError`, `KeyError` and `IOError`). -/
inductive StoredEntry (α : Type) where
  | missing : StoredEntry α
  | unreadable : StoredEntry α
  | notJson : StoredEntry α
  | badEncoding : StoredEntry α
  | jsonNotDict : StoredEntry α
  | noTimestampKey : StoredEntry α
  | timestampNotString : StoredEntry α
  | timestampMalformed : StoredEntry α
  | timestampAware (timestamp : Int) (data : α) : StoredEntry α
  | entryNoData (timestamp : Int) : StoredEntry α
  | entry (timestamp : Int) (data : α) : StoredEntry α
deriving DecidableEq

/-- `get_from_cache(key)`, path by path.  Missing file, `IOError` on
open/read, `json.JSONDecodeError` and `KeyError` (no `timestamp` or no
`data` key) are handled — the first by the exists check, the rest by the
except tuple — and return `None`, as does an expired entry.  But the
except tuple does not list the other exceptions the body can raise, so
they propagate to the caller: `UnicodeDecodeError` decoding the file,
`TypeError` indexing a non-object JSON value with a string, `TypeError`
from `datetime.fromisoformat` on a non-string timestamp, `ValueError`
from it on a malformed timestamp string, and `TypeError` subtracting an
offset-aware stored time from the naive `datetime.now()`. -/
def get_from_cache {α : Type} (stored : StoredEntry α) (now : Int) :
    Except PyErr (Option α) :=
  match stored with
  | .missing => .ok none
  | .unreadable => .ok none
  | .notJson => .ok none
  | .badEncoding => .error PyErr.unicodeDecodeError
  | .jsonNotDict => .error (PyErr.typeError "list indices must be integers or slices, not str")
  | .noTimestampKey => .ok none
  | .timestampNotString => .error (PyErr.typeError "fromisoformat: argument must be str")
  | .timestampMalformed => .error (PyErr.valueError "Invalid isoformat string")
  | .timestampAware _ _ =>
    .error (PyErr.typeError "cannot subtract offset-naive and offset-aware datetimes")
  | .entryNoData _ => .ok none
  | .entry t d => if now - t > CACHE_DURATION then .ok none else .ok (some d)

end Cache

namespace Quota

/- ---------------------------------------------------------------------
src/quota.py and src/utils.py
--------------------------------------------------------------------- -/

/-- Python `dict.get(key, default)` on a string-keyed table. -/
def dictGet (d : List (String × Nat)) (k : String) (default : Nat) : Nat :=
  match d.find? (fun p => p.1 = k) with
  | some p => p.2
  | none => default

/-- `QUOTA_COSTS` (src/quota.py): the only per-action cost table in the
repository.  Its keys are YouTube API call names. -/
def QUOTA_COSTS : List (String × Nat) :=
  [("channels.list", 1), ("playlistItems.list", 1), ("captions.list", 50),
   ("captions.insert", 400), ("captions.update", 450), ("captions.delete", 50)]

/-- `increment_quota` (src/quota.py): adds the static cost of the call to the
module-global `_QUOTA_USAGE` counter; unknown call names add nothing. -/
def increment_quota (ledger : Nat) (api_call_name : String) : Nat :=
  ledger + dictGet QUOTA_COSTS api_call_name 0

/-- Outcome of `confirm_quota` (src/utils.py): the projected cost it
computed, whether it prompted via `input()`, and the returned decision.
`confirm_quota` never touches the `_QUOTA_USAGE` ledger. -/
structure ConfirmOutcome where
  totalCost : Nat
  prompted : Bool
  proceed : Bool
deriving DecidableEq

/-- `confirm_quota(uploads, updates, deletes)` (src/utils.py).  Note: the
source imports `QUOTA_COSTS` from `src.config`, which does not define it
(an `ImportError` at module load); the only `QUOTA_COSTS` in the
repository is the table in src/quota.py, embedded above, and it is the
table the spec names.  The lookups use the keys "UPLOAD"/"UPDATE"/"DELETE"
with default 0.  `answer` is the raw `input()` reply. -/
def confirm_quota (answer : String) (uploads updates deletes : Nat) : ConfirmOutcome :=
  let total_cost := uploads * dictGet QUOTA_COSTS "UPLOAD" 0 +
                    updates * dictGet QUOTA_COSTS "UPDATE" 0 +
                    deletes * dictGet QUOTA_COSTS "DELETE" 0
  if total_cost = 0 then
    { totalCost := total_cost, prompted := false, proceed := true }
  else
    let p := answer.toLower
    if p = "y" ∨ p = "yes" then
      { totalCost := total_cost, prompted := true, proceed := true }
    else
      { totalCost := total_cost, prompted := true, proceed := false }

end Quota

namespace Py

/- ---------------------------------------------------------------------
Models of the Python string methods the source applies to language codes
and caption ids (`str.lower`, `str.strip`), implemented over the
character list of the string.  `Char.toLower` lower-cases exactly the
ASCII range, which matches Python on the ASCII identifiers involved.
--------------------------------------------------------------------- -/

/-- Python `str.lower()`. -/
def lower (s : String) : String :=
  String.mk (s.data.map Char.toLower)

/-- The whitespace characters Python `str.strip()` removes. -/
def isSpaceChar (c : Char) : Bool :=
  c = ' ' ∨ c = '\t' ∨ c = '\n' ∨ c = '\r' ∨ c = '\x0b' ∨ c = '\x0c'

/-- Python `str.strip()`. -/
def strip (s : String) : String :=
  String.mk (((s.data.dropWhile isSpaceChar).reverse.dropWhile isSpaceChar).reverse)

end Py

namespace Config

/- ---------------------------------------------------------------------
src/config.py
--------------------------------------------------------------------- -/

/-- `REGIONAL_LANGUAGE_MAP` (src/config.py). -/
def REGIONAL_LANGUAGE_MAP : List (String × String) :=
  [("ar", "ar"), ("bn", "bn"), ("nl", "nl-NL"), ("fr", "fr-FR"), ("de", "de-DE"),
   ("hi", "hi"), ("id", "id"), ("it", "it"), ("ja", "ja"), ("ko", "ko"), ("ml", "ml"),
   ("pl", "pl"), ("pt", "pt-BR"), ("pt-br", "pt-BR"), ("pa", "pa"), ("ru", "ru"),
   ("es", "es-US"), ("es-us", "es-US"), ("ta", "ta"), ("te", "te"), ("uk", "uk"),
   ("en", "en"), ("en-us", "en-US"), ("en-gb", "en-GB"), ("zh", "zh"), ("zh-cn", "zh-CN"),
   ("zh-tw", "zh-TW"), ("zh-hk", "zh-HK")]

/-- The value `normalize_language_code(lang, translator)` returns: looks up
`lang.lower().strip()` in the regional map, falling back to `lang` itself.
(The function also prints a notice through the translator when the mapped
value differs from the input; that effect is modelled separately where the
translator argument matters.) -/
def normalize_language_code (lang : String) : String :=
  match REGIONAL_LANGUAGE_MAP.find? (fun p => p.1 = Py.strip (Py.lower lang)) with
  | some p => p.2
  | none => lang

/-- Whether `normalize_language_code` executes its
`print(translator.get(...))` line: the mapped value exists and differs
from the input. -/
def normalizePrints (lang : String) : Bool :=
  match REGIONAL_LANGUAGE_MAP.find? (fun p => p.1 = Py.strip (Py.lower lang)) with
  | some p => p.2 != lang
  | none => false

/-- `validate_language_code` (src/config.py): membership of
`lang.lower()` in the static list of YouTube subtitle language codes. -/
def valid_codes : List String :=
  ["aa", "ab", "af", "ak", "am", "an", "ar", "as", "av", "ay", "az",
   "ba", "be", "bg", "bh", "bi", "bm", "bn", "bo", "br", "bs",
   "ca", "ce", "ch", "co", "cr", "cs", "cu", "cv", "cy",
   "da", "de", "de-de", "dv", "dz",
   "ee", "el", "en", "en-us", "en-gb", "eo", "es", "es-us", "et", "eu",
   "fa", "ff", "fi", "fj", "fo", "fr", "fr-fr", "fy",
   "ga", "gd", "gl", "gn", "gu", "gv",
   "ha", "he", "hi", "ho", "hr", "ht", "hu", "hy", "hz",
   "ia", "id", "ie", "ig", "ii", "ik", "io", "is", "it", "iu",
   "ja", "jv",
   "ka", "kg", "ki", "kj", "kk", "kl", "km", "kn", "ko", "kr", "ks", "ku", "kv", "kw", "ky",
   "la", "lb", "lg", "li", "ln", "lo", "lt", "lu", "lv",
   "mg", "mh", "mi", "mk", "ml", "mn", "mo", "mr", "ms", "mt", "my",
   "na", "nb", "nd", "ne", "ng", "nl", "nl-nl", "nn", "no", "nr", "nv", "ny",
   "oc", "oj", "om", "or", "os",
   "pa", "pi", "pl", "ps", "pt", "pt-br",
   "qu",
   "rm", "rn", "ro", "ru", "rw",
   "sa", "sc", "sd", "se", "sg", "sh", "si", "sk", "sl", "sm", "sn", "so", "sq", "sr", "ss", "st", "su", "sv", "sw",
   "ta", "te", "tg", "th", "ti", "tk", "tl", "tn", "to", "tr", "ts", "tt", "tw", "ty",
   "ug", "uk", "ur", "uz",
   "ve", "vi", "vo",
   "wa", "wo",
   "xh",
   "yi", "yo",
   "za", "zh", "zh-cn", "zh-tw", "zh-hk", "zu"]

/-- `validate_language_code(lang)`: `lang.lower() in valid_codes`. -/
def validate_language_code (lang : String) : Bool :=
  valid_codes.contains (Py.lower lang)

end Config

namespace FileHandler

/- ---------------------------------------------------------------------
src/file_handler.py : sync_project
--------------------------------------------------------------------- -/

/-- `datetime.min.replace(tzinfo=timezone.utc)` (0001-01-01T00:00:00Z) as
seconds relative to the Unix epoch: the value a missing or null
`last_sync` is compared as. -/
def datetimeMinTs : Int := -62135596800

/-- One value of the `subtitles` mapping of a video in `subtitles.json`.
A JSON key that is absent or null is `none`; `last_sync` is stored as an
ISO timestamp and parsed with `datetime.fromisoformat`, modelled as the
corresponding integer number of seconds. -/
structure SubInfo where
  caption_id : Option String
  local_path : Option String
  last_sync : Option Int
  last_updated : Option String
  status : String
deriving DecidableEq, Repr

/-- `video_info["subtitles"]`: language code -> record, in insertion order. -/
abbrev Subs := List (String × SubInfo)

/-- `project_data`: video id -> subtitles mapping (the `title` and `error`
fields play no role in synchronization and are omitted). -/
abbrev ProjectData := List (String × Subs)

/-- `local_files`: (video id, language) -> (full path, `os.path.getmtime`
modification time in seconds). -/
abbrev LocalFiles := List ((String × String) × (String × Int))

/-- `datetime.fromisoformat(sub_info["last_sync"]) if ... else datetime.min`. -/
def effLastSync (ls : Option Int) : Int :=
  match ls with
  | some t => t
  | none => datetimeMinTs

/-- Association-list lookup (Python dict indexing / `in` test). -/
def lookupA {κ β : Type} [DecidableEq κ] : List (κ × β) → κ → Option β
  | [], _ => none
  | e :: rest, k => if e.1 = k then some e.2 else lookupA rest k

/-- Dict assignment `d[k] = v`: replaces the value in place, or appends. -/
def insertA {κ β : Type} [DecidableEq κ] : List (κ × β) → κ → β → List (κ × β)
  | [], k, v => [(k, v)]
  | e :: rest, k, v => if e.1 = k then (k, v) :: rest else e :: insertA rest k v

/-- `del d[k]` / `d.pop(k)`: removes the entry (dict keys are unique). -/
def removeA {κ β : Type} [DecidableEq κ] : List (κ × β) → κ → List (κ × β)
  | [], _ => []
  | e :: rest, k => if e.1 = k then removeA rest k else e :: removeA rest k

/-- In-place mutation of the record stored at a key. -/
def modifyA {κ β : Type} [DecidableEq κ] (f : β → β) : List (κ × β) → κ → List (κ × β)
  | [], _ => []
  | e :: rest, k => if e.1 = k then (e.1, f e.2) :: modifyA f rest k else e :: modifyA f rest k

/-- Lookup of `project_data[v]["subtitles"][l]`. -/
def lookupSub (pd : ProjectData) (v l : String) : Option SubInfo :=
  match lookupA pd v with
  | some subs => lookupA subs l
  | none => none

inductive ActKind where
  | upload
  | update
  | delete
deriving DecidableEq, Repr

/-- One entry of `actions_to_perform` (the `sub_info` reference the tuple
carries is recovered by key lookup at execution time). -/
abbrev Action := ActKind × String × String

/-- The fresh record built for a local file with no prior entry:
`{"caption_id": None, "local_path": local_path, "status": "new",
"last_sync": None}`. -/
def newSubInfo (path : String) : SubInfo :=
  { caption_id := none, local_path := some path, last_sync := none,
    last_updated := none, status := "new" }

/-- First reconciliation loop of `sync_project`, for one video: walks the
subtitles dict of the video; a pair also present locally is popped from
`local_files`, stamped with its local path and classified
modified/synced by `local_mod_time > last_sync_time`; a pair absent
locally is classified deleted.  Returns the rewritten subtitles map, the
remaining local files, and the emitted actions in order. -/
def processSubs (v : String) : Subs → LocalFiles → Subs × LocalFiles × List Action
  | [], lf => ([], lf, [])
  | (l, info) :: rest, lf =>
    match lookupA lf (v, l) with
    | some pm =>
      let newer := effLastSync info.last_sync < pm.2
      let info2 := { info with local_path := some pm.1,
                               status := if newer then "modified" else "synced" }
      let out := processSubs v rest (removeA lf (v, l))
      ((l, info2) :: out.1, out.2.1,
        (if newer then [(ActKind.update, v, l)] else []) ++ out.2.2)
    | none =>
      let info2 := { info with status := "deleted" }
      let out := processSubs v rest lf
      ((l, info2) :: out.1, out.2.1, (ActKind.delete, v, l) :: out.2.2)

/-- First reconciliation loop over all videos of `project_data`. -/
def processProject : ProjectData → LocalFiles → ProjectData × LocalFiles × List Action
  | [], lf => ([], lf, [])
  | (v, subs) :: rest, lf =>
    let o1 := processSubs v subs lf
    let o2 := processProject rest o1.2.1
    ((v, o1.1) :: o2.1, o2.2.1, o1.2.2 ++ o2.2.2)

/-- Second loop: every local file still unmatched whose video id is a key
of `project_data` gets a fresh record and an upload action. -/
def addUploads : ProjectData → LocalFiles → ProjectData × List Action
  | pd, [] => (pd, [])
  | pd, e :: rest =>
    if (lookupA pd e.1.1).isSome then
      let pd2 := modifyA (fun subs => insertA subs e.1.2 (newSubInfo e.2.1)) pd e.1.1
      let out := addUploads pd2 rest
      (out.1, (ActKind.upload, e.1.1, e.1.2) :: out.2)
    else
      addUploads pd rest

/-- The whole planning phase of `sync_project`: rewritten `project_data`
and `actions_to_perform`. -/
def syncPlan (pd : ProjectData) (lf : LocalFiles) : ProjectData × List Action :=
  let o1 := processProject pd lf
  let o2 := addUploads o1.1 o1.2.1
  (o2.1, o1.2.2 ++ o2.2)

/-- Remote outcomes of the three YouTube calls, per (video, language):
upload yields `(caption id, lastUpdated)`, update yields `lastUpdated`,
delete yields nothing; `.error e` is a raised exception rendered as the
string interpolated into the status stamp. -/
structure RemoteExec where
  uploadRes : String → String → Except String (String × String)
  updateRes : String → String → Except String String
  deleteRes : String → String → Except String Unit

/-- Update of the in-memory record at (v, l). -/
def modifySub (pd : ProjectData) (v l : String) (f : SubInfo → SubInfo) : ProjectData :=
  modifyA (fun subs => modifyA f subs l) pd v

/-- `del project_data[video_id]["subtitles"][lang]`. -/
def removeSub (pd : ProjectData) (v l : String) : ProjectData :=
  modifyA (fun subs => removeA subs l) pd v

/-- Execution of one action of the plan (the `try` body plus the
`except` branch of `sync_project`): on success, upload stores caption id,
"synced", fresh `last_sync` = `now` and the remote timestamp; update
stores the same minus the id; delete removes the record.  On a raised
exception the status of the record is stamped with the error detail. -/
def execAction (r : RemoteExec) (now : Int) (pd : ProjectData) (a : Action) : ProjectData :=
  match a with
  | (ActKind.upload, v, l) =>
    match r.uploadRes v l with
    | .ok cl => modifySub pd v l (fun i =>
        { i with caption_id := some cl.1, status := "synced",
                 last_sync := some now, last_updated := some cl.2 })
    | .error e => modifySub pd v l (fun i => { i with status := "error: " ++ e })
  | (ActKind.update, v, l) =>
    match r.updateRes v l with
    | .ok lu => modifySub pd v l (fun i =>
        { i with status := "synced", last_sync := some now, last_updated := some lu })
    | .error e => modifySub pd v l (fun i => { i with status := "error: " ++ e })
  | (ActKind.delete, v, l) =>
    match r.deleteRes v l with
    | .ok _ => removeSub pd v l
    | .error e => modifySub pd v l (fun i => { i with status := "error: " ++ e })

/-- The execution loop: every action of the plan is attempted; a failure
is recorded in the state and the loop continues with the next action. -/
def execPlan (r : RemoteExec) (now : Int) : ProjectData → List Action → ProjectData
  | pd, [] => pd
  | pd, a :: rest => execPlan r now (execAction r now pd a) rest

/- ---------------------------------------------------------------------
src/file_handler.py : the flat-filename branch of the local scan
--------------------------------------------------------------------- -/

/-- Python `s.split(sep, 1)` restricted to the two-part unpacking the
scanner performs: splits at the FIRST occurrence of `sep`; `none` models
the `ValueError` raised by `video_id, lang = ....split("_", 1)` when the
separator is absent. -/
def pySplitOnce (sep : Char) : List Char → Option (List Char × List Char)
  | [] => none
  | c :: cs =>
    if c = sep then some ([], cs)
    else
      match pySplitOnce sep cs with
      | some ab => some (c :: ab.1, ab.2)
      | none => none

/-- The flat-convention (legacy) branch of the scanner, for one file name
in the project root: requires the `.srt` suffix (`file.endswith(".srt")`),
strips the extension (`os.path.splitext(file)[0]`), splits the stem on the
first underscore into `video_id, lang`, and keeps the pair only when the
video id is a key of `project_data`; malformed names and unknown video
ids are logged and skipped (`none`). -/
def scanFlatFile (projectKeys : List (List Char)) (file : List Char) :
    Option (List Char × List Char) :=
  if ['.', 's', 'r', 't'].isSuffixOf file then
    match pySplitOnce '_' (file.take (file.length - 4)) with
    | some vl => if vl.1 ∈ projectKeys then some vl else none
    | none => none
  else none

end FileHandler

namespace ProjectHandler

/- ---------------------------------------------------------------------
src/project_handler.py : sync_project
--------------------------------------------------------------------- -/

/-- `remote_captions`: language -> caption id, built from the project
file `status.json` (dict keys are unique). -/
abbrev RemoteCaptions := List (String × String)

/-- `local_captions`: language -> file path, from the `subtitles/` scan. -/
abbrev LocalCaptions := List (String × String)

/-- `to_upload`: local languages with no remote record. -/
def to_upload (localc : LocalCaptions) (remote : RemoteCaptions) : LocalCaptions :=
  localc.filter (fun e => (FileHandler.lookupA remote e.1).isNone)

/-- `to_update`: local languages that also have a remote record. -/
def to_update (localc : LocalCaptions) (remote : RemoteCaptions) : LocalCaptions :=
  localc.filter (fun e => (FileHandler.lookupA remote e.1).isSome)

/-- `to_delete`: remote records with no local file; always computed and
always reported in the summary, whether or not deletes are allowed. -/
def to_delete (localc : LocalCaptions) (remote : RemoteCaptions) : RemoteCaptions :=
  remote.filter (fun e => (FileHandler.lookupA localc e.1).isNone)

/-- The delete calls step 5 actually issues: the `for` loop over
`to_delete` runs only under `if allow_deletes:`. -/
def executedDeletes (allow_deletes : Bool) (localc : LocalCaptions)
    (remote : RemoteCaptions) : RemoteCaptions :=
  if allow_deletes then to_delete localc remote else []

/-- The `deletes=` count handed to `confirm_quota`:
`len(to_delete) if allow_deletes else 0`. -/
def confirmDeleteCount (allow_deletes : Bool) (localc : LocalCaptions)
    (remote : RemoteCaptions) : Nat :=
  if allow_deletes then (to_delete localc remote).length else 0

end ProjectHandler

namespace YoutubeApi

/- ---------------------------------------------------------------------
src/youtube_api.py
--------------------------------------------------------------------- -/

/-- A remote YouTube API request issued by the module (name plus the
argument that identifies it). -/
inductive NetCall where
  | captionsInsert (videoId lang : String)
  | captionsUpdate (captionId : String)
  | captionsDelete (captionId : String)
  | captionsList (videoId : String)
  | channelsList
  | playlistItemsList
deriving DecidableEq, Repr

/-- The Python object bound to the `translator` parameter of
`upload_caption` / `update_caption` / `delete_caption`.  The src/main.py
and src/file_handler.py call sites pass a real `Translator`; the
src/project_handler.py call sites pass the `dry_run` boolean positionally
into this slot. -/
inductive TranslatorArg where
  | translator
  | pyBool (b : Bool)
deriving DecidableEq, Repr

/-- The message of the exception `True.get(...)` / `False.get(...)`
raises. -/
def attrErrorBoolGet : String := "AttributeError: bool object has no attribute get"

/-- `translator.get(key, ...)`: a real translator returns the localized
string; a boolean in the translator slot raises `AttributeError`. -/
def translatorGet (t : TranslatorArg) (key : String) : Except String String :=
  match t with
  | .translator => .ok key
  | .pyBool _ => .error attrErrorBoolGet

/-- `upload_caption(youtube, video_id, language, file_path, translator)`:
the prints (each a `translator.get` call), the `captions().insert`
network mutation with its quota increment, and the success print, in
source order.  `insertRes` is the remote outcome of the insert call.
Returns the network calls performed and either success or the raised
exception.  There is no dry-run parameter and no short-circuit in the
source. -/
def uploadCaptionTrace (t : TranslatorArg) (insertRes : Except String Unit)
    (videoId lang : String) : List NetCall × Except String Unit :=
  let nl := Config.normalize_language_code lang
  match (if Config.normalizePrints lang then translatorGet t "config.lang_normalized" else .ok "") with
  | .error e => ([], .error e)
  | .ok _ =>
    match (if ¬ Config.validate_language_code nl then translatorGet t "youtube_api.invalid_lang_code" else .ok "") with
    | .error e => ([], .error e)
    | .ok _ =>
      match translatorGet t "youtube_api.uploading_caption" with
      | .error e => ([], .error e)
      | .ok _ =>
        match insertRes with
        | .error e => ([NetCall.captionsInsert videoId nl], .error e)
        | .ok _ =>
          match translatorGet t "youtube_api.upload_success" with
          | .error e => ([NetCall.captionsInsert videoId nl], .error e)
          | .ok _ => ([NetCall.captionsInsert videoId nl], .ok ())

/-- The upload loop of step 5 of `project_handler.sync_project`:
`for lang, path in to_upload.items(): upload_caption(youtube, video_id,
lang, path, dry_run)` — the dry-run boolean occupies the translator
parameter.  There is no try/except here: a raised exception aborts the
loop and propagates out of `sync_project`. -/
def runUploads (insertRes : String → Except String Unit) (dry_run : Bool)
    (videoId : String) : List (String × String) → List NetCall × Except String Unit
  | [] => ([], .ok ())
  | e :: rest =>
    let o := uploadCaptionTrace (TranslatorArg.pyBool dry_run) (insertRes e.1) videoId e.1
    match o.2 with
    | .ok _ =>
      let r := runUploads insertRes dry_run videoId rest
      (o.1 ++ r.1, r.2)
    | .error err => (o.1, .error err)

/- --------- update_caption (lines 99-145) --------- -/

/-- A remote call made by `update_caption` and its fallbacks. -/
inductive UpdCall where
  | updateById (captionId : String)
  | listCall
  | insertCall
deriving DecidableEq, Repr

/-- What `update_caption` ends up doing. -/
inductive UpdOutcome where
  | updated (captionId : String)
  | uploaded
deriving DecidableEq, Repr

/- ------ the cache call shared by get_channel_videos / list_captions ------ -/

/-- The number of parameters `cache.get_from_cache` declares in
src/cache.py. -/
def getFromCacheParams : Nat := 1

/-- The number of positional arguments src/youtube_api.py passes at both
of its call sites (lines 42 and 76):
`get_from_cache(cache_key, translator)`. -/
def getFromCacheArgsPassed : Nat := 2

/-- The message of the TypeError Python raises for the mismatched call. -/
def cacheArityMsg : String :=
  "get_from_cache() takes 1 positional argument but 2 were given"

/-- Python call semantics for `cache.get_from_cache`: when the argument
count differs from the parameter count the call raises TypeError before
the function body runs; otherwise the body executes (and may itself
raise, see `Cache.get_from_cache`). -/
def callGetFromCache {α : Type} (argCount : Nat) (stored : Cache.StoredEntry α)
    (now : Int) : Except PyErr (Option α) :=
  if argCount = getFromCacheParams then Cache.get_from_cache stored now
  else .error (PyErr.typeError cacheArityMsg)

/-- The paginated fetch inside `get_channel_videos`: one `channels.list`
call, then one `playlistItems.list` call per page of the uploads
playlist (the loop always runs at least once; `pages` lists the items of
each page in order). -/
def fetchAllPages (pages : List (List (String × String))) :
    List (String × String) × List NetCall :=
  (pages.flatten, NetCall.channelsList :: pages.map (fun _ => NetCall.playlistItemsList))

/-- Lines 43-65 of `get_channel_videos`, entered with the value a cache
read would produce: the hit test is `if cached_videos:` — Python
truthiness — so an empty cached list falls through to the remote fetch
with its quota-costing calls, while a non-empty list is returned with no
call.  (In the staged source this code is unreachable: see
`get_channel_videos`.) -/
def get_channel_videos_after_read (cached : Option (List (String × String)))
    (pages : List (List (String × String))) :
    List (String × String) × List NetCall :=
  match cached with
  | some vs => if vs.isEmpty then fetchAllPages pages else (vs, [])
  | none => fetchAllPages pages

/-- `get_channel_videos` as staged: its first step is
`get_from_cache(cache_key, translator)` — two positional arguments to
the one-parameter function of src/cache.py — so every call raises
TypeError before the truthiness test, the fetch, or any quota increment.
(The repository test suite itself calls `get_from_cache` with two
arguments: src/tests/test_cache.py expects the translator-accepting
signature.) -/
def get_channel_videos (cache : Cache.StoredEntry (List (String × String)))
    (now : Int) (pages : List (List (String × String))) :
    Except PyErr (List (String × String) × List NetCall) :=
  match callGetFromCache getFromCacheArgsPassed cache now with
  | .error e => .error e
  | .ok cached => .ok (get_channel_videos_after_read cached pages)

/-- Lines 77-83 of `list_captions`, entered with the value a cache read
would produce: the hit test is `if cached_captions is not None:`, so any
cached payload — an empty response included — is a hit with no network
call; a miss performs the `captions.list` call, whose HttpError
propagates to the caller per the docstring.  (Unreachable in the staged
source: see `list_captions`.) -/
def list_captions_after_read {α : Type} (cached : Option α) (remote : Except Nat α)
    (videoId : String) : Except PyErr (α × List NetCall) :=
  match cached with
  | some r => .ok (r, [])
  | none =>
    match remote with
    | .ok resp => .ok (resp, [NetCall.captionsList videoId])
    | .error s => .error (PyErr.httpError s)

/-- `list_captions` as staged: raises TypeError at
`get_from_cache(cache_key, translator)` before the `is not None` test or
the API call. -/
def list_captions {α : Type} (cache : Cache.StoredEntry α) (now : Int)
    (remote : Except Nat α) (videoId : String) : Except PyErr (α × List NetCall) :=
  match callGetFromCache getFromCacheArgsPassed cache now with
  | .error e => .error e
  | .ok cached => list_captions_after_read cached remote videoId

/- --------- update_caption (lines 99-145) --------- -/

/-- The remote service and cache state as `update_caption` can observe
them: `updateById id` is the outcome of `captions().update` on that id
(the error carries the HTTP status); `listCache`, `now`, `videoId` and
`remoteListResp` feed the `list_captions` call of the search phase;
`insertRes` is the outcome of the `captions().insert` a fallback
`upload_caption` performs. -/
structure UpdateEnv where
  updateById : String → Except Nat Unit
  listCache : Cache.StoredEntry (List (String × String))
  now : Int
  videoId : String
  remoteListResp : Except Nat (List (String × String))
  insertRes : Except Nat Unit

/-- The fresh-upload fallback (`upload_caption` called from
`update_caption`): performs the insert; an HttpError from it propagates. -/
def uploadFallback (env : UpdateEnv) : List UpdCall × Except PyErr UpdOutcome :=
  match env.insertRes with
  | .ok _ => ([UpdCall.insertCall], .ok UpdOutcome.uploaded)
  | .error s => ([UpdCall.insertCall], .error (PyErr.httpError s))

/-- Lines 121-145 of `update_caption` as a function of the outcome of
its `list_captions` step — the form the unit tests exercise by mocking
`list_captions`: an HttpError from the listing is caught and degrades to
a fresh upload; otherwise the first item whose language matches
case-insensitively is updated, and an update failure or a missing match
degrades to a fresh upload. -/
def searchByLangGivenList (env : UpdateEnv) (nl : String)
    (listOutcome : Except Nat (List (String × String))) :
    List UpdCall × Except PyErr UpdOutcome :=
  match listOutcome with
  | .error _ =>
    let o := uploadFallback env
    (UpdCall.listCall :: o.1, o.2)
  | .ok items =>
    match items.find? (fun it => Py.lower it.2 = Py.lower nl) with
    | some it =>
      match env.updateById it.1 with
      | .ok _ => ([UpdCall.listCall, UpdCall.updateById it.1], .ok (UpdOutcome.updated it.1))
      | .error _ =>
        let o := uploadFallback env
        ([UpdCall.listCall, UpdCall.updateById it.1] ++ o.1, o.2)
    | none =>
      let o := uploadFallback env
      (UpdCall.listCall :: o.1, o.2)

/-- The search phase as staged: `list_captions` is actually called, and
its `except HttpError` catches only HttpError, so the TypeError the
staged `list_captions` raises propagates out of `update_caption`. -/
def searchByLang (env : UpdateEnv) (nl : String) : List UpdCall × Except PyErr UpdOutcome :=
  match list_captions env.listCache env.now env.remoteListResp env.videoId with
  | .ok pr => searchByLangGivenList env nl (Except.ok pr.1)
  | .error (PyErr.httpError s) => searchByLangGivenList env nl (Except.error s)
  | .error e => ([], .error e)

/-- `is_valid_caption_id = pd.notna(caption_id) and str(caption_id).strip()`:
a missing/null/NaN id is invalid, as is one that strips to empty. -/
def is_valid_caption_id (c : Option String) : Bool :=
  match c with
  | none => false
  | some s => !(Py.strip s == "")

/-- `update_caption(youtube, video_id, language, file_path, translator,
caption_id)`: with a valid caption id, attempt the direct update by that
id first; only HTTP 404 on it falls through to the by-language search;
any other HttpError is re-raised.  Without a valid id, go straight to
the search.  Returns the remote calls in order and the outcome (`.error`
is a propagated exception). -/
def update_caption (env : UpdateEnv) (lang : String) (caption_id : Option String) :
    List UpdCall × Except PyErr UpdOutcome :=
  let nl := Config.normalize_language_code lang
  if is_valid_caption_id caption_id then
    let sid := Py.strip (caption_id.getD "")
    match env.updateById sid with
    | .ok _ => ([UpdCall.updateById sid], .ok (UpdOutcome.updated sid))
    | .error s =>
      if s = 404 then
        let o := searchByLang env nl
        (UpdCall.updateById sid :: o.1, o.2)
      else
        ([UpdCall.updateById sid], .error (PyErr.httpError s))
  else
    searchByLang env nl

end YoutubeApi

namespace FileHandler

/-- The actions the first reconciliation loop contributes for one project
pair `(v, l)` carrying record `info`, as a function of the scan alone:
an update when the pair is present locally and strictly newer than its
last sync, nothing when present and not newer, a delete when absent.
(`processSubs_plan` below proves the loop emits exactly this.) -/
def planned (lf : LocalFiles) (v l : String) (info : SubInfo) : List Action :=
  match lookupA lf (v, l) with
  | some pm => if effLastSync info.last_sync < pm.2 then [(ActKind.update, v, l)] else []
  | none => [(ActKind.delete, v, l)]

end FileHandler

namespace Fixtures

/-- A record already synchronized at time 1000. -/
def infoSynced : FileHandler.SubInfo :=
  { caption_id := some "cap-en", local_path := some "projects/p/vid1/en.srt",
    last_sync := some 1000, last_updated := none, status := "synced" }

/-- A record that has never been synchronized (`last_sync` null). -/
def infoNull : FileHandler.SubInfo :=
  { caption_id := none, local_path := none, last_sync := none,
    last_updated := none, status := "synced" }

/-- One-video project state whose only caption was synced at time 1000. -/
def pdSynced : FileHandler.ProjectData := [("vid1", [("en", infoSynced)])]

/-- One-video project state whose only caption has a null `last_sync`. -/
def pdNull : FileHandler.ProjectData := [("vid1", [("en", infoNull)])]

/-- A local scan of the same pair with modification time 900 (older than
the 1000 of `infoSynced`). -/
def lfOld : FileHandler.LocalFiles :=
  [(("vid1", "en"), ("projects/p/vid1/en.srt", 900))]

/-- A remote-execution environment whose delete call fails for
(vid1, es) and succeeds elsewhere. -/
def execEnv : FileHandler.RemoteExec where
  uploadRes := fun _ _ => Except.ok ("cap-new", "ts-upload")
  updateRes := fun _ _ => Except.ok "ts-update"
  deleteRes := fun v l =>
    if v = "vid1" ∧ l = "es" then Except.error "HttpError 403" else Except.ok ()

/-- A project state holding records for (vid1, es) and (vid1, fr). -/
def pdTwo : FileHandler.ProjectData :=
  [("vid1", [("es", infoSynced), ("fr", infoSynced)])]

/-- A remote environment for `update_caption`: the stored caption id
"dead" now 404s, "cap-en" exists for language en and updates fine, other
ids fail with a 500; the cache holds a fresh listing and the remote
listing would return the same item. -/
def updEnv : YoutubeApi.UpdateEnv where
  updateById := fun cid =>
    if cid = "cap-en" then Except.ok ()
    else if cid = "dead" then Except.error 404
    else Except.error 500
  listCache := Cache.StoredEntry.entry 0 [("cap-en", "en")]
  now := 100
  videoId := "vid1"
  remoteListResp := Except.ok [("cap-en", "en")]
  insertRes := Except.ok ()

end Fixtures

namespace FileHandler

theorem lookupA_none_forall {κ β : Type} [DecidableEq κ] {l : List (κ × β)} {k : κ}
    (h : lookupA l k = none) : ∀ e ∈ l, e.1 ≠ k := by
  induction l with
  | nil => intro e he; cases he
  | cons a rest ih =>
    intro e he
    by_cases ha : a.1 = k
    · simp [lookupA, ha] at h
    · rcases List.mem_cons.mp he with rfl | he2
      · exact ha
      · simp only [lookupA, if_neg ha] at h
        exact ih h e he2

theorem lookupA_eq_none_of_not_mem_keys {κ β : Type} [DecidableEq κ] {l : List (κ × β)} {k : κ}
    (h : k ∉ l.map Prod.fst) : lookupA l k = none := by
  induction l with
  | nil => rfl
  | cons a rest ih =>
    simp only [List.map_cons, List.mem_cons] at h
    push_neg at h
    have ha : ¬ a.1 = k := fun hh => h.1 (Eq.symm hh)
    simp only [lookupA, if_neg ha]
    exact ih h.2

theorem lookupA_some_mem {κ β : Type} [DecidableEq κ] {l : List (κ × β)} {k : κ} {b : β}
    (h : lookupA l k = some b) : (k, b) ∈ l := by
  induction l with
  | nil => cases h
  | cons a rest ih =>
    obtain ⟨k2, v⟩ := a
    by_cases ha : k2 = k
    · subst ha
      simp only [lookupA, if_pos trivial] at h
      rw [show v = b by simpa using h]
      exact List.mem_cons_self _ _
    · simp only [lookupA, if_neg ha] at h
      exact List.mem_cons_of_mem _ (ih h)

theorem lookupA_of_mem_nodup {κ β : Type} [DecidableEq κ] {l : List (κ × β)} {k : κ} {b : β}
    (hnd : (l.map Prod.fst).Nodup) (h : (k, b) ∈ l) : lookupA l k = some b := by
  induction l with
  | nil => cases h
  | cons a rest ih =>
    obtain ⟨k2, v⟩ := a
    simp only [List.map_cons, List.nodup_cons] at hnd
    rcases List.mem_cons.mp h with heq | hmem
    · injection heq with h1 h2
      subst h1; subst h2
      simp [lookupA]
    · have hk : k2 ≠ k := by
        intro hkk
        subst hkk
        exact hnd.1 (List.mem_map_of_mem Prod.fst hmem)
      simp only [lookupA, if_neg hk]
      exact ih hnd.2 hmem

theorem lookupA_modifyA_self {κ β : Type} [DecidableEq κ] (f : β → β) (l : List (κ × β)) (k : κ) :
    lookupA (modifyA f l k) k = (lookupA l k).map f := by
  induction l with
  | nil => rfl
  | cons a rest ih =>
    by_cases ha : a.1 = k
    · simp [modifyA, lookupA, ha]
    · simp [modifyA, lookupA, ha, ih]

theorem lookupA_modifyA_other {κ β : Type} [DecidableEq κ] (f : β → β) (l : List (κ × β))
    (k w : κ) (hw : w ≠ k) : lookupA (modifyA f l k) w = lookupA l w := by
  have hkw : ¬ k = w := fun hh => hw (Eq.symm hh)
  induction l with
  | nil => rfl
  | cons a rest ih =>
    by_cases ha : a.1 = k
    · have hb : ¬ a.1 = w := by rw [ha]; exact hkw
      simp [modifyA, lookupA, ha, hb, hkw, ih]
    · by_cases hb : a.1 = w
      · simp [modifyA, lookupA, ha, hb, hkw, hw]
      · simp [modifyA, lookupA, ha, hb, hkw, hw, ih]

theorem lookupA_removeA_self {κ β : Type} [DecidableEq κ] (l : List (κ × β)) (k : κ) :
    lookupA (removeA l k) k = none := by
  induction l with
  | nil => rfl
  | cons a rest ih =>
    by_cases ha : a.1 = k
    · simp [removeA, ha, ih]
    · simp [removeA, lookupA, ha, ih]

theorem lookupA_removeA_other {κ β : Type} [DecidableEq κ] (l : List (κ × β)) (k w : κ)
    (hw : w ≠ k) : lookupA (removeA l k) w = lookupA l w := by
  have hkw : ¬ k = w := fun hh => hw (Eq.symm hh)
  have hwk : ¬ w = k := hw
  induction l with
  | nil => rfl
  | cons a rest ih =>
    by_cases ha : a.1 = k
    · have hb : ¬ a.1 = w := by rw [ha]; exact hkw
      simp [removeA, lookupA, ha, hb, hkw, hwk, ih]
    · by_cases hb : a.1 = w
      · simp [removeA, lookupA, ha, hb, hkw, hwk]
      · simp [removeA, lookupA, ha, hb, hkw, hwk, ih]

theorem mem_removeA {κ β : Type} [DecidableEq κ] {l : List (κ × β)} {k : κ} {e : κ × β} :
    e ∈ removeA l k ↔ e ∈ l ∧ e.1 ≠ k := by
  induction l with
  | nil => simp [removeA]
  | cons a rest ih =>
    by_cases ha : a.1 = k
    · rw [show removeA (a :: rest) k = removeA rest k by simp [removeA, ha], ih]
      constructor
      · rintro ⟨he, hk⟩
        exact ⟨List.mem_cons_of_mem _ he, hk⟩
      · rintro ⟨he, hk⟩
        rcases List.mem_cons.mp he with rfl | he2
        · exact absurd ha hk
        · exact ⟨he2, hk⟩
    · rw [show removeA (a :: rest) k = a :: removeA rest k by simp [removeA, ha]]
      rw [List.mem_cons, ih, List.mem_cons]
      constructor
      · rintro (rfl | ⟨he, hk⟩)
        · exact ⟨Or.inl rfl, ha⟩
        · exact ⟨Or.inr he, hk⟩
      · rintro ⟨rfl | he, hk⟩
        · exact Or.inl rfl
        · exact Or.inr ⟨he, hk⟩

end FileHandler

namespace FileHandler

theorem processSubs_plan (v : String) (subs : Subs) (lf : LocalFiles)
    (hnd : (subs.map Prod.fst).Nodup) :
    (processSubs v subs lf).2.2 = subs.flatMap (fun p => planned lf v p.1 p.2) := by
  induction subs generalizing lf with
  | nil => rfl
  | cons a rest ih =>
    obtain ⟨l, info⟩ := a
    simp only [List.map_cons, List.nodup_cons] at hnd
    cases hl : lookupA lf (v, l) with
    | some pm =>
      have hcong : ∀ p ∈ rest, planned (removeA lf (v, l)) v p.1 p.2 = planned lf v p.1 p.2 := by
        intro p hp
        have hpl : ¬ ((v, p.1) : String × String) = (v, l) := by
          intro hh
          injection hh with h1 h2
          exact hnd.1 (h2 ▸ List.mem_map_of_mem Prod.fst hp)
        unfold planned
        rw [lookupA_removeA_other _ _ _ hpl]
      have h1 : planned lf v l info =
          if effLastSync info.last_sync < pm.2 then [(ActKind.update, v, l)] else [] := by
        unfold planned
        rw [hl]
      simp only [processSubs, hl, List.flatMap_cons, h1]
      rw [ih (removeA lf (v, l)) hnd.2, List.flatMap_congr hcong]
    | none =>
      have h1 : planned lf v l info = [(ActKind.delete, v, l)] := by
        unfold planned
        rw [hl]
      simp only [processSubs, hl, List.flatMap_cons, h1]
      rw [ih lf hnd.2]
      rfl

theorem mem_processSubs_lf (v : String) (subs : Subs) (lf : LocalFiles)
    (hnd : (subs.map Prod.fst).Nodup) (e : (String × String) × String × Int) :
    e ∈ (processSubs v subs lf).2.1 ↔
      e ∈ lf ∧ ¬ (e.1.1 = v ∧ (lookupA subs e.1.2).isSome) := by
  induction subs generalizing lf with
  | nil => simp [processSubs, lookupA]
  | cons a rest ih =>
    obtain ⟨l, info⟩ := a
    simp only [List.map_cons, List.nodup_cons] at hnd
    cases hl : lookupA lf (v, l) with
    | some pm =>
      simp only [processSubs, hl]
      rw [ih (removeA lf (v, l)) hnd.2, mem_removeA]
      by_cases hv : e.1.1 = v <;> by_cases he : e.1.2 = l
      · have hee : e.1 = (v, l) := Prod.ext hv he
        simp [lookupA, hv, he, hee]
      · have hee : ¬ e.1 = (v, l) := by
          intro hh
          exact he (congrArg Prod.snd hh)
        have hle : ¬ ((l : String) = e.1.2) := fun hh => he (Eq.symm hh)
        simp [lookupA, hv, hle, hee]
      · have hee : ¬ e.1 = (v, l) := by
          intro hh
          exact hv (congrArg Prod.fst hh)
        simp [lookupA, hv, he, hee]
      · have hee : ¬ e.1 = (v, l) := by
          intro hh
          exact hv (congrArg Prod.fst hh)
        simp [lookupA, hv, he, hee]
    | none =>
      simp only [processSubs, hl]
      rw [ih lf hnd.2]
      have hke := lookupA_none_forall hl
      constructor
      · rintro ⟨hmem, hno⟩
        refine ⟨hmem, ?_⟩
        rintro ⟨hv, hsome⟩
        by_cases he : e.1.2 = l
        · exact hke e hmem (Prod.ext hv he)
        · have hle : ¬ ((l : String) = e.1.2) := fun hh => he (Eq.symm hh)
          simp only [lookupA, if_neg hle] at hsome
          exact hno ⟨hv, hsome⟩
      · rintro ⟨hmem, hno⟩
        refine ⟨hmem, ?_⟩
        rintro ⟨hv, hsome⟩
        by_cases he : e.1.2 = l
        · exact hke e hmem (Prod.ext hv he)
        · have hle : ¬ ((l : String) = e.1.2) := fun hh => he (Eq.symm hh)
          exact hno ⟨hv, by simp only [lookupA, if_neg hle]; exact hsome⟩

theorem lookupA_processSubs_lf_other (v : String) (subs : Subs) (lf : LocalFiles)
    (k : String × String) (hk : k.1 ≠ v) :
    lookupA (processSubs v subs lf).2.1 k = lookupA lf k := by
  induction subs generalizing lf with
  | nil => rfl
  | cons a rest ih =>
    obtain ⟨l, info⟩ := a
    cases hl : lookupA lf (v, l) with
    | some pm =>
      simp only [processSubs, hl]
      rw [ih, lookupA_removeA_other]
      intro hh
      exact hk (congrArg Prod.fst hh)
    | none =>
      simp only [processSubs, hl]
      exact ih lf

end FileHandler

namespace FileHandler

theorem processProject_plan (pd : ProjectData) (lf : LocalFiles)
    (hnd : (pd.map Prod.fst).Nodup) (hsubs : ∀ q ∈ pd, (q.2.map Prod.fst).Nodup) :
    (processProject pd lf).2.2 =
      pd.flatMap (fun q => q.2.flatMap (fun p => planned lf q.1 p.1 p.2)) := by
  induction pd generalizing lf with
  | nil => rfl
  | cons a rest ih =>
    obtain ⟨v, subs⟩ := a
    simp only [List.map_cons, List.nodup_cons] at hnd
    simp only [processProject, List.flatMap_cons]
    rw [processSubs_plan v subs lf (hsubs _ (List.mem_cons_self _ _))]
    rw [ih _ hnd.2 (fun q hq => hsubs q (List.mem_cons_of_mem _ hq))]
    have hcong : ∀ q ∈ rest,
        q.2.flatMap (fun p => planned (processSubs v subs lf).2.1 q.1 p.1 p.2) =
        q.2.flatMap (fun p => planned lf q.1 p.1 p.2) := by
      intro q hq
      have hqv : q.1 ≠ v := by
        intro hh
        exact hnd.1 (hh ▸ List.mem_map_of_mem Prod.fst hq)
      refine List.flatMap_congr ?_
      intro p _
      unfold planned
      rw [lookupA_processSubs_lf_other v subs lf (q.1, p.1) hqv]
    rw [List.flatMap_congr hcong]

theorem mem_processProject_lf (pd : ProjectData) (lf : LocalFiles)
    (hnd : (pd.map Prod.fst).Nodup) (hsubs : ∀ q ∈ pd, (q.2.map Prod.fst).Nodup)
    (e : (String × String) × String × Int) :
    e ∈ (processProject pd lf).2.1 ↔
      e ∈ lf ∧ ¬ (lookupSub pd e.1.1 e.1.2).isSome := by
  induction pd generalizing lf with
  | nil => simp [processProject, lookupSub, lookupA]
  | cons a rest ih =>
    obtain ⟨v, subs⟩ := a
    simp only [List.map_cons, List.nodup_cons] at hnd
    simp only [processProject]
    rw [ih _ hnd.2 (fun q hq => hsubs q (List.mem_cons_of_mem _ hq))]
    rw [mem_processSubs_lf v subs lf (hsubs _ (List.mem_cons_self _ _))]
    by_cases hv : e.1.1 = v
    · have hrest : lookupA rest v = none := by
        apply lookupA_eq_none_of_not_mem_keys
        exact hnd.1
      simp [lookupSub, lookupA, hv, hrest]
    · have hlv : ¬ (v = e.1.1) := fun hh => hv (Eq.symm hh)
      simp [lookupSub, lookupA, hv, hlv]

theorem mem_addUploads_acts (lf : LocalFiles) (pd : ProjectData) (a : Action)
    (h : a ∈ (addUploads pd lf).2) :
    a.1 = ActKind.upload ∧ ∃ e ∈ lf, e.1 = (a.2.1, a.2.2) := by
  induction lf generalizing pd with
  | nil => cases h
  | cons e rest ih =>
    simp only [addUploads] at h
    by_cases hv : (lookupA pd e.1.1).isSome = true
    · rw [if_pos hv] at h
      rcases List.mem_cons.mp h with rfl | h2
      · exact ⟨rfl, e, List.mem_cons_self _ _, rfl⟩
      · obtain ⟨h1, e2, he2, hk⟩ := ih _ h2
        exact ⟨h1, e2, List.mem_cons_of_mem _ he2, hk⟩
    · rw [if_neg hv] at h
      obtain ⟨h1, e2, he2, hk⟩ := ih _ h
      exact ⟨h1, e2, List.mem_cons_of_mem _ he2, hk⟩

end FileHandler

namespace FileHandler

theorem planned_eq_of_lookup_some (lf : LocalFiles) (v l : String) (info : SubInfo)
    (pm : String × Int) (hl : lookupA lf (v, l) = some pm) :
    planned lf v l info =
      if effLastSync info.last_sync < pm.2 then [(ActKind.update, v, l)] else [] := by
  unfold planned
  rw [hl]

theorem planned_eq_of_lookup_none (lf : LocalFiles) (v l : String) (info : SubInfo)
    (hl : lookupA lf (v, l) = none) :
    planned lf v l info = [(ActKind.delete, v, l)] := by
  unfold planned
  rw [hl]

theorem planned_mem_ids (lf : LocalFiles) (v l : String) (info : SubInfo) (a : Action)
    (h : a ∈ planned lf v l info) : a.2.1 = v ∧ a.2.2 = l := by
  cases hl : lookupA lf (v, l) with
  | some pm =>
    rw [planned_eq_of_lookup_some lf v l info pm hl] at h
    by_cases hn : effLastSync info.last_sync < pm.2
    · rw [if_pos hn] at h
      rw [List.mem_singleton.mp h]
      exact ⟨rfl, rfl⟩
    · rw [if_neg hn] at h
      cases h
  | none =>
    rw [planned_eq_of_lookup_none lf v l info hl] at h
    rw [List.mem_singleton.mp h]
    exact ⟨rfl, rfl⟩

theorem acts1_mem_inversion (pd : ProjectData) (lf : LocalFiles)
    (hnd : (pd.map Prod.fst).Nodup) (hsubs : ∀ q ∈ pd, (q.2.map Prod.fst).Nodup)
    (v l : String) (info : SubInfo) (pm : String × Int) (k : ActKind)
    (hproj : lookupSub pd v l = some info) (hloc : lookupA lf (v, l) = some pm)
    (h : (k, v, l) ∈ pd.flatMap (fun q => q.2.flatMap (fun p => planned lf q.1 p.1 p.2))) :
    k = ActKind.update ∧ effLastSync info.last_sync < pm.2 := by
  rcases List.mem_flatMap.mp h with ⟨q, hq, hq2⟩
  rcases List.mem_flatMap.mp hq2 with ⟨p, hp, hp2⟩
  obtain ⟨hv, hl2⟩ := planned_mem_ids _ _ _ _ _ hp2
  obtain ⟨qv, qsubs⟩ := q
  obtain ⟨pl, pinfo⟩ := p
  simp only at hv hl2
  subst hv
  subst hl2
  have hqv : lookupA pd v = some qsubs := lookupA_of_mem_nodup hnd hq
  have hproj2 : lookupA qsubs l = some info := by
    unfold lookupSub at hproj
    rw [hqv] at hproj
    exact hproj
  have hpv : lookupA qsubs l = some pinfo :=
    lookupA_of_mem_nodup (hsubs _ hq) hp
  have hinfo : pinfo = info := by
    rw [hproj2] at hpv
    injection hpv with hh
    exact hh.symm
  subst hinfo
  have hp3 : (k, v, l) ∈ planned lf v l pinfo := hp2
  rw [planned_eq_of_lookup_some lf v l pinfo pm hloc] at hp3
  by_cases hn : effLastSync pinfo.last_sync < pm.2
  · rw [if_pos hn] at hp3
    have := List.mem_singleton.mp hp3
    exact ⟨congrArg Prod.fst this, hn⟩
  · rw [if_neg hn] at hp3
    cases hp3

/-- C1: for every (videoId, language) pair present both in the local scan
and in the persisted project state, the reconciler emits an update action
iff the local modification time is strictly newer than the stored
`last_sync` (a missing `last_sync` compares as `datetime.min`, hence is
always stale for any non-negative modification time); when the local
time is not newer no action at all is emitted for the pair, and a run in
which every pair is present on both sides with no local change produces
an empty plan. -/
theorem c1_update_iff_strictly_newer (pd : ProjectData) (lf : LocalFiles)
    (hnd : (pd.map Prod.fst).Nodup)
    (hsubs : ∀ q ∈ pd, (q.2.map Prod.fst).Nodup) :
    (∀ v l info pm,
        lookupSub pd v l = some info →
        lookupA lf (v, l) = some pm →
          (((ActKind.update, v, l) ∈ (syncPlan pd lf).2) ↔
              effLastSync info.last_sync < pm.2) ∧
          (info.last_sync = none → 0 ≤ pm.2 →
              (ActKind.update, v, l) ∈ (syncPlan pd lf).2) ∧
          (¬ effLastSync info.last_sync < pm.2 →
              ∀ k, (k, v, l) ∉ (syncPlan pd lf).2)) ∧
    ((∀ q ∈ pd, ∀ p ∈ q.2, ∃ pm, lookupA lf (q.1, p.1) = some pm ∧
          ¬ effLastSync p.2.last_sync < pm.2) →
      (∀ e ∈ lf, (lookupSub pd e.1.1 e.1.2).isSome) →
      (syncPlan pd lf).2 = []) := by
  have hplan : (syncPlan pd lf).2 =
      (processProject pd lf).2.2 ++
        (addUploads (processProject pd lf).1 (processProject pd lf).2.1).2 := rfl
  constructor
  · intro v l info pm hproj hloc
    have hnoup : ∀ k : ActKind, (k, v, l) ∈
        (addUploads (processProject pd lf).1 (processProject pd lf).2.1).2 → False := by
      intro k hk
      obtain ⟨_, e, he, hkey⟩ := mem_addUploads_acts _ _ _ hk
      rw [mem_processProject_lf pd lf hnd hsubs] at he
      apply he.2
      have : e.1 = (v, l) := hkey
      rw [this]
      simp [hproj]
    have hiff : ((ActKind.update, v, l) ∈ (syncPlan pd lf).2) ↔
        effLastSync info.last_sync < pm.2 := by
      constructor
      · intro hmem
        rw [hplan] at hmem
        rcases List.mem_append.mp hmem with h1 | h2
        · rw [processProject_plan pd lf hnd hsubs] at h1
          exact (acts1_mem_inversion pd lf hnd hsubs v l info pm _ hproj hloc h1).2
        · exact absurd h2 (fun hh => hnoup _ hh)
      · intro hnew
        rw [hplan]
        apply List.mem_append.mpr
        left
        rw [processProject_plan pd lf hnd hsubs]
        apply List.mem_flatMap.mpr
        unfold lookupSub at hproj
        cases hpd0 : lookupA pd v with
        | none =>
          rw [hpd0] at hproj
          cases hproj
        | some subs =>
          rw [hpd0] at hproj
          refine ⟨(v, subs), lookupA_some_mem hpd0, ?_⟩
          apply List.mem_flatMap.mpr
          refine ⟨(l, info), lookupA_some_mem hproj, ?_⟩
          show (ActKind.update, v, l) ∈ planned lf v l info
          rw [planned_eq_of_lookup_some lf v l info pm hloc, if_pos hnew]
          exact List.mem_singleton.mpr rfl
    refine ⟨hiff, ?_, ?_⟩
    · intro hnone hpm
      apply hiff.mpr
      rw [hnone]
      simp only [effLastSync, datetimeMinTs]
      omega
    · intro hnot k hmem
      rw [hplan] at hmem
      rcases List.mem_append.mp hmem with h1 | h2
      · rw [processProject_plan pd lf hnd hsubs] at h1
        exact hnot (acts1_mem_inversion pd lf hnd hsubs v l info pm _ hproj hloc h1).2
      · exact hnoup _ h2
  · intro hall hloc2
    have h1 : (processProject pd lf).2.2 = [] := by
      rw [processProject_plan pd lf hnd hsubs]
      apply List.eq_nil_iff_forall_not_mem.mpr
      intro a ha
      rcases List.mem_flatMap.mp ha with ⟨q, hq, hq2⟩
      rcases List.mem_flatMap.mp hq2 with ⟨p, hp, hp2⟩
      obtain ⟨pm, hpm, hnot⟩ := hall q hq p hp
      rw [planned_eq_of_lookup_some lf q.1 p.1 p.2 pm hpm, if_neg hnot] at hp2
      cases hp2
    have h2 : (processProject pd lf).2.1 = [] := by
      apply List.eq_nil_iff_forall_not_mem.mpr
      intro e he
      rw [mem_processProject_lf pd lf hnd hsubs] at he
      exact he.2 (hloc2 e he.1)
    rw [hplan, h1, h2]
    simp [addUploads]

end FileHandler

/-- Witness for C1: with a null `last_sync` and local mtime 900 the plan
contains the update for (vid1, en); with `last_sync` 1000 and the same
older local file the whole plan is empty. -/
theorem c1_witness :
    ((FileHandler.ActKind.update, "vid1", "en") ∈
        (FileHandler.syncPlan Fixtures.pdNull Fixtures.lfOld).2) ∧
    (FileHandler.syncPlan Fixtures.pdSynced Fixtures.lfOld).2 = [] := by
  constructor
  · exact ((FileHandler.c1_update_iff_strictly_newer Fixtures.pdNull Fixtures.lfOld
      (by decide) (by decide)).1 "vid1" "en" Fixtures.infoNull
      ("projects/p/vid1/en.srt", 900) (by decide) (by decide)).2.1 rfl (by decide)
  · refine (FileHandler.c1_update_iff_strictly_newer Fixtures.pdSynced Fixtures.lfOld
      (by decide) (by decide)).2 ?_ ?_
    · intro q hq p hp
      simp only [Fixtures.pdSynced, List.mem_singleton] at hq
      subst hq
      simp only [List.mem_singleton] at hp
      subst hp
      exact ⟨("projects/p/vid1/en.srt", 900), by decide, by decide⟩
    · intro e he
      simp only [Fixtures.lfOld, List.mem_singleton] at he
      subst he
      decide

namespace FileHandler

theorem lookupSub_modifySub_self (pd : ProjectData) (v l : String) (f : SubInfo → SubInfo) :
    lookupSub (modifySub pd v l f) v l = (lookupSub pd v l).map f := by
  unfold lookupSub modifySub
  rw [lookupA_modifyA_self]
  cases lookupA pd v with
  | none => rfl
  | some subs =>
    show lookupA (modifyA f subs l) l = (lookupA subs l).map f
    exact lookupA_modifyA_self f subs l

theorem lookupSub_modifySub_other (pd : ProjectData) (v l v2 l2 : String)
    (f : SubInfo → SubInfo) (h : ¬ (v2 = v ∧ l2 = l)) :
    lookupSub (modifySub pd v l f) v2 l2 = lookupSub pd v2 l2 := by
  unfold lookupSub modifySub
  by_cases hv : v2 = v
  · subst hv
    rw [lookupA_modifyA_self]
    cases lookupA pd v2 with
    | none => rfl
    | some subs =>
      show lookupA (modifyA f subs l) l2 = lookupA subs l2
      apply lookupA_modifyA_other
      intro hh
      exact h ⟨rfl, hh⟩
  · rw [lookupA_modifyA_other _ _ _ _ hv]

theorem lookupSub_removeSub_self (pd : ProjectData) (v l : String) :
    lookupSub (removeSub pd v l) v l = none := by
  unfold lookupSub removeSub
  rw [lookupA_modifyA_self]
  cases lookupA pd v with
  | none => rfl
  | some subs =>
    show lookupA (removeA subs l) l = none
    exact lookupA_removeA_self subs l

theorem lookupSub_removeSub_other (pd : ProjectData) (v l v2 l2 : String)
    (h : ¬ (v2 = v ∧ l2 = l)) :
    lookupSub (removeSub pd v l) v2 l2 = lookupSub pd v2 l2 := by
  unfold lookupSub removeSub
  by_cases hv : v2 = v
  · subst hv
    rw [lookupA_modifyA_self]
    cases lookupA pd v2 with
    | none => rfl
    | some subs =>
      show lookupA (removeA subs l) l2 = lookupA subs l2
      apply lookupA_removeA_other
      intro hh
      exact h ⟨rfl, hh⟩
  · rw [lookupA_modifyA_other _ _ _ _ hv]

theorem lookupSub_execAction_other (r : RemoteExec) (now : Int) (pd : ProjectData)
    (a : Action) (v l : String) (h : ¬ (a.2.1 = v ∧ a.2.2 = l)) :
    lookupSub (execAction r now pd a) v l = lookupSub pd v l := by
  obtain ⟨k, v2, l2⟩ := a
  have h2 : ¬ (v = v2 ∧ l = l2) := fun hh => h ⟨hh.1.symm, hh.2.symm⟩
  cases k with
  | upload =>
    simp only [execAction]
    cases hc : r.uploadRes v2 l2 with
    | ok cl => exact lookupSub_modifySub_other pd v2 l2 v l _ h2
    | error e => exact lookupSub_modifySub_other pd v2 l2 v l _ h2
  | update =>
    simp only [execAction]
    cases hc : r.updateRes v2 l2 with
    | ok lu => exact lookupSub_modifySub_other pd v2 l2 v l _ h2
    | error e => exact lookupSub_modifySub_other pd v2 l2 v l _ h2
  | delete =>
    simp only [execAction]
    cases hc : r.deleteRes v2 l2 with
    | ok u => exact lookupSub_removeSub_other pd v2 l2 v l h2
    | error e => exact lookupSub_modifySub_other pd v2 l2 v l _ h2

theorem lookupSub_execPlan_untouched (r : RemoteExec) (now : Int) (rest : List Action)
    (pd : ProjectData) (v l : String) (h : ∀ a ∈ rest, ¬ (a.2.1 = v ∧ a.2.2 = l)) :
    lookupSub (execPlan r now pd rest) v l = lookupSub pd v l := by
  induction rest generalizing pd with
  | nil => rfl
  | cons a rest2 ih =>
    simp only [execPlan]
    rw [ih _ (fun b hb => h b (List.mem_cons_of_mem _ hb))]
    exact lookupSub_execAction_other r now pd a v l (h a (List.mem_cons_self _ _))

end FileHandler

/-- C5: the record of a caption is removed from the project state only after
the remote delete succeeded; when the delete raises, the record stays in
the mapping stamped with the error detail, and the loop continues with
the rest of the plan unconditionally. -/
theorem c5_delete_removes_only_after_success (r : FileHandler.RemoteExec) (now : Int) :
    (∀ pd v l info e rest,
        FileHandler.lookupSub pd v l = some info →
        r.deleteRes v l = Except.error e →
        (∀ a ∈ rest, ¬ (a.2.1 = v ∧ a.2.2 = l)) →
          FileHandler.lookupSub
            (FileHandler.execPlan r now pd ((FileHandler.ActKind.delete, v, l) :: rest)) v l =
            some { info with status := "error: " ++ e }) ∧
    (∀ pd v l, r.deleteRes v l = Except.ok () →
        FileHandler.lookupSub
          (FileHandler.execAction r now pd (FileHandler.ActKind.delete, v, l)) v l = none) ∧
    (∀ pd a rest,
        FileHandler.execPlan r now pd (a :: rest) =
          FileHandler.execPlan r now (FileHandler.execAction r now pd a) rest) := by
  refine ⟨?_, ?_, ?_⟩
  · intro pd v l info e rest hinfo herr hrest
    simp only [FileHandler.execPlan]
    rw [FileHandler.lookupSub_execPlan_untouched r now rest _ v l hrest]
    simp only [FileHandler.execAction]
    rw [herr]
    show FileHandler.lookupSub
        (FileHandler.modifySub pd v l (fun i => { i with status := "error: " ++ e })) v l =
      some { info with status := "error: " ++ e }
    rw [FileHandler.lookupSub_modifySub_self, hinfo]
    rfl
  · intro pd v l hok
    simp only [FileHandler.execAction]
    rw [hok]
    exact FileHandler.lookupSub_removeSub_self pd v l
  · intro pd a rest
    rfl

/-- Witness for C5: on `pdTwo` the failing delete of (vid1, es) leaves
the record stamped with the error while the following successful delete
of (vid1, fr) removes that record. -/
theorem c5_witness :
    FileHandler.lookupSub
      (FileHandler.execPlan Fixtures.execEnv 5000 Fixtures.pdTwo
        [(FileHandler.ActKind.delete, "vid1", "es"),
         (FileHandler.ActKind.delete, "vid1", "fr")]) "vid1" "es" =
      some { Fixtures.infoSynced with status := "error: HttpError 403" } := by
  have h := (c5_delete_removes_only_after_success Fixtures.execEnv 5000).1
    Fixtures.pdTwo "vid1" "es" Fixtures.infoSynced "HttpError 403"
    [(FileHandler.ActKind.delete, "vid1", "fr")]
    (by decide) (by rfl) (by decide)
  exact h

namespace ProjectHandler

theorem filter_key_single {remote : RemoteCaptions} {l cid : String}
    (hnd : (remote.map Prod.fst).Nodup) (hmem : (l, cid) ∈ remote)
    (p : String × String → Bool) (hp : p (l, cid) = true) :
    remote.filter (fun e => decide (e.1 = l) && p e) = [(l, cid)] := by
  induction remote with
  | nil => cases hmem
  | cons a rest ih =>
    obtain ⟨k2, v2⟩ := a
    simp only [List.map_cons, List.nodup_cons] at hnd
    rcases List.mem_cons.mp hmem with heq | hmem2
    · injection heq with h1 h2
      subst h1
      subst h2
      have hhead : (decide (((l, cid) : String × String).1 = l) && p (l, cid)) = true := by
        simp [hp]
      rw [List.filter_cons, if_pos hhead]
      have hrest : rest.filter (fun e => decide (e.1 = l) && p e) = [] := by
        apply List.filter_eq_nil_iff.mpr
        intro e he
        have hne : e.1 ≠ l := by
          intro hh
          exact hnd.1 (by rw [← hh]; exact List.mem_map_of_mem Prod.fst he)
        simp [hne]
      rw [hrest]
    · have hne : k2 ≠ l := by
        intro hh
        subst hh
        exact hnd.1 (List.mem_map_of_mem Prod.fst hmem2)
      have hhead : (decide (((k2, v2) : String × String).1 = l) && p (k2, v2)) = false := by
        simp [hne]
      rw [List.filter_cons, if_neg (by simp [hne])]
      exact ih hnd.2 hmem2

end ProjectHandler

/-- C3: a pair present remotely but absent locally is always reported in
`to_delete`; with deletes disallowed the executed delete list is empty
and the quota check is fed a zero delete count; with deletes allowed the
pair accounts for exactly one executed delete call; and in the
file_handler executor a successful remote delete removes the record from
the rewritten project state. -/
theorem c3_deletes_gated (localc : ProjectHandler.LocalCaptions)
    (remote : ProjectHandler.RemoteCaptions) (l cid : String)
    (hmem : (l, cid) ∈ remote) (hloc : FileHandler.lookupA localc l = none)
    (hnd : (remote.map Prod.fst).Nodup) :
    ProjectHandler.executedDeletes false localc remote = [] ∧
    (l, cid) ∈ ProjectHandler.to_delete localc remote ∧
    ProjectHandler.confirmDeleteCount false localc remote = 0 ∧
    (ProjectHandler.executedDeletes true localc remote).filter
        (fun e => decide (e.1 = l)) = [(l, cid)] ∧
    (∀ (r : FileHandler.RemoteExec) (now : Int) (pd : FileHandler.ProjectData) (v : String),
        r.deleteRes v l = Except.ok () →
          FileHandler.lookupSub
            (FileHandler.execAction r now pd (FileHandler.ActKind.delete, v, l)) v l = none) := by
  refine ⟨rfl, ?_, rfl, ?_, ?_⟩
  · apply List.mem_filter.mpr
    exact ⟨hmem, by simp [hloc]⟩
  · show (ProjectHandler.to_delete localc remote).filter (fun e => decide (e.1 = l)) = [(l, cid)]
    unfold ProjectHandler.to_delete
    rw [List.filter_filter]
    exact ProjectHandler.filter_key_single hnd hmem _ (by simp [hloc])
  · intro r now pd v hok
    simp only [FileHandler.execAction]
    rw [hok]
    exact FileHandler.lookupSub_removeSub_self pd v l

/-- Witness for C3: local has only `en`, remote has `en` and `es`; with
deletes disallowed nothing is executed, with deletes allowed exactly the
`es` record is deleted. -/
theorem c3_witness :
    ProjectHandler.executedDeletes false [("en", "subtitles/en.srt")]
        [("en", "cap-en"), ("es", "cap-es")] = [] ∧
    (ProjectHandler.executedDeletes true [("en", "subtitles/en.srt")]
        [("en", "cap-en"), ("es", "cap-es")]).filter
        (fun e => decide (e.1 = "es")) = [("es", "cap-es")] := by
  have h := c3_deletes_gated [("en", "subtitles/en.srt")]
    [("en", "cap-en"), ("es", "cap-es")] "es" "cap-es" (by decide) (by decide) (by decide)
  exact ⟨h.1, h.2.2.2.1⟩

namespace FileHandler

theorem pySplitOnce_eq_some (sep : Char) (s : List Char) :
    ∀ a b : List Char, pySplitOnce sep s = some (a, b) ↔ s = a ++ sep :: b ∧ sep ∉ a := by
  induction s with
  | nil =>
    intro a b
    constructor
    · intro h
      cases h
    · rintro ⟨hs, _⟩
      exact absurd hs (by simp)
  | cons c cs ih =>
    intro a b
    by_cases hc : c = sep
    · subst hc
      rw [show pySplitOnce c (c :: cs) = some ([], cs) from by simp [pySplitOnce]]
      constructor
      · intro h
        injection h with h2
        have ha : ([] : List Char) = a := congrArg Prod.fst h2
        have hb : cs = b := congrArg Prod.snd h2
        refine ⟨by rw [← ha, ← hb]; rfl, by rw [← ha]; simp⟩
      · rintro ⟨hs, hna⟩
        cases a with
        | nil =>
          injection hs with _ h2
          rw [h2]
        | cons x a2 =>
          injection hs with h1 _
          exact absurd (by rw [h1]; exact List.mem_cons_self x a2) hna
    · rw [show pySplitOnce sep (c :: cs) =
          (match pySplitOnce sep cs with
            | some ab => some (c :: ab.1, ab.2)
            | none => none) from by simp [pySplitOnce, hc]]
      cases hrec : pySplitOnce sep cs with
      | some ab =>
        obtain ⟨a2, b2⟩ := ab
        constructor
        · intro h
          injection h with h2
          have ha : c :: a2 = a := congrArg Prod.fst h2
          have hb : b2 = b := congrArg Prod.snd h2
          obtain ⟨hcs, hna2⟩ := (ih a2 b2).mp hrec
          constructor
          · rw [← ha, ← hb, hcs]
            rfl
          · rw [← ha]
            intro hh
            rcases List.mem_cons.mp hh with hh1 | hh2
            · exact hc hh1.symm
            · exact hna2 hh2
        · rintro ⟨hs, hna⟩
          cases a with
          | nil =>
            injection hs with h1 _
            exact absurd h1 hc
          | cons x a2p =>
            injection hs with h1 h2
            have hna2 : sep ∉ a2p := fun hh => hna (List.mem_cons_of_mem _ hh)
            have hrec2 := (ih a2p b).mpr ⟨h2, hna2⟩
            rw [hrec] at hrec2
            injection hrec2 with h3
            have ha2 : a2 = a2p := congrArg Prod.fst h3
            have hb2 : b2 = b := congrArg Prod.snd h3
            rw [ha2, hb2, h1]
      | none =>
        constructor
        · intro h
          cases h
        · rintro ⟨hs, hna⟩
          cases a with
          | nil =>
            injection hs with h1 _
            exact absurd h1 hc
          | cons x a2p =>
            injection hs with h1 h2
            have hna2 : sep ∉ a2p := fun hh => hna (List.mem_cons_of_mem _ hh)
            have hrec2 := (ih a2p b).mpr ⟨h2, hna2⟩
            rw [hrec] at hrec2
            cases hrec2

end FileHandler

/-- Counterexample for C2: with videoId `a_b` known to the project, the
flat file `a_b_c.srt` is NOT parsed as (a_b, c): the scanner splits on
the first underscore, yielding video id `a` — unknown, so the file is
skipped.  When `a` happens to be a known video id the pair becomes
(a, b_c). -/
theorem c2_counterexample :
    FileHandler.scanFlatFile [['a', '_', 'b']]
        ['a', '_', 'b', '_', 'c', '.', 's', 'r', 't'] = none ∧
    FileHandler.scanFlatFile [['a'], ['a', '_', 'b']]
        ['a', '_', 'b', '_', 'c', '.', 's', 'r', 't'] =
      some (['a'], ['b', '_', 'c']) := by decide

/-- C2 (amended): the flat-convention scanner splits the stem on the
FIRST underscore: it recognizes the file exactly when the stem is
`v ++ "_" ++ l` with `v` underscore-free and a known project key; video
ids containing underscores are therefore not matched by the flat
convention. -/
theorem c2_flat_scan_first_underscore (keys : List (List Char)) (file v l : List Char) :
    FileHandler.scanFlatFile keys file = some (v, l) ↔
      (['.', 's', 'r', 't'].isSuffixOf file = true ∧
        file.take (file.length - 4) = v ++ '_' :: l ∧ '_' ∉ v ∧ v ∈ keys) := by
  unfold FileHandler.scanFlatFile
  by_cases hs : ['.', 's', 'r', 't'].isSuffixOf file = true
  · rw [if_pos hs]
    cases hsp : FileHandler.pySplitOnce '_' (file.take (file.length - 4)) with
    | some vl =>
      obtain ⟨v2, l2⟩ := vl
      obtain ⟨hstem, hnv2⟩ := (FileHandler.pySplitOnce_eq_some '_' _ v2 l2).mp hsp
      change (if v2 ∈ keys then some (v2, l2) else none) = some (v, l) ↔ _
      by_cases hk : v2 ∈ keys
      · rw [if_pos hk]
        constructor
        · intro h
          injection h with h2
          have hv : v2 = v := congrArg Prod.fst h2
          have hl : l2 = l := congrArg Prod.snd h2
          subst hv
          subst hl
          exact ⟨hs, hstem, hnv2, hk⟩
        · rintro ⟨_, hstem2, hnv, hkv⟩
          have h2 := (FileHandler.pySplitOnce_eq_some '_' _ v l).mpr ⟨hstem2, hnv⟩
          rw [hsp] at h2
          injection h2 with h3
          have hv : v2 = v := congrArg Prod.fst h3
          have hl : l2 = l := congrArg Prod.snd h3
          rw [hv, hl]
      · rw [if_neg hk]
        constructor
        · intro h
          cases h
        · rintro ⟨_, hstem2, hnv, hkv⟩
          have h2 := (FileHandler.pySplitOnce_eq_some '_' _ v l).mpr ⟨hstem2, hnv⟩
          rw [hsp] at h2
          injection h2 with h3
          have hv : v2 = v := congrArg Prod.fst h3
          exact absurd (show v2 ∈ keys by rw [hv]; exact hkv) hk
    | none =>
      constructor
      · intro h
        cases h
      · rintro ⟨_, hstem2, hnv, _⟩
        have h2 := (FileHandler.pySplitOnce_eq_some '_' _ v l).mpr ⟨hstem2, hnv⟩
        rw [hsp] at h2
        cases h2
  · rw [if_neg hs]
    constructor
    · intro h
      cases h
    · rintro ⟨hs2, _⟩
      exact absurd hs2 hs

theorem searchByLangGivenList_ok (env : YoutubeApi.UpdateEnv) (nl : String)
    (items : List (String × String)) :
    YoutubeApi.searchByLangGivenList env nl (Except.ok items) =
      match items.find? (fun it => Py.lower it.2 = Py.lower nl) with
      | some it =>
        match env.updateById it.1 with
        | Except.ok _ =>
          ([YoutubeApi.UpdCall.listCall, YoutubeApi.UpdCall.updateById it.1],
            Except.ok (YoutubeApi.UpdOutcome.updated it.1))
        | Except.error _ =>
          ([YoutubeApi.UpdCall.listCall, YoutubeApi.UpdCall.updateById it.1] ++
              (YoutubeApi.uploadFallback env).1, (YoutubeApi.uploadFallback env).2)
      | none =>
        (YoutubeApi.UpdCall.listCall :: (YoutubeApi.uploadFallback env).1,
          (YoutubeApi.uploadFallback env).2) := rfl

theorem searchByLang_staged_raises (env : YoutubeApi.UpdateEnv) (nl : String) :
    YoutubeApi.searchByLang env nl =
      ([], Except.error (PyErr.typeError YoutubeApi.cacheArityMsg)) := rfl

/-- C4 (code bug evidence): with a valid caption id the direct update by
that id still runs first and alone — only HTTP 404 on that id falls
through, and any other error propagates with no further call — but
every path that reaches the by-language search raises TypeError instead
of searching, because `list_captions` calls `get_from_cache` with two
positional arguments against the one-parameter definition in
src/cache.py and `except HttpError` does not catch TypeError.  The
search-then-fresh-upload order the claim describes does hold for the
search code itself given a list outcome (`searchByLangGivenList`, the
form the unit tests exercise by mocking `list_captions`), but it can
never execute in the assembled program. -/
theorem c4_update_fallback_search_unreachable
    (env : YoutubeApi.UpdateEnv) (lang : String) :
    (∀ cid : Option String, YoutubeApi.is_valid_caption_id cid = true →
      (env.updateById (Py.strip (cid.getD "")) = Except.ok () →
          YoutubeApi.update_caption env lang cid =
            ([YoutubeApi.UpdCall.updateById (Py.strip (cid.getD ""))],
              Except.ok (YoutubeApi.UpdOutcome.updated (Py.strip (cid.getD ""))))) ∧
      (∀ s, env.updateById (Py.strip (cid.getD "")) = Except.error s → s ≠ 404 →
          YoutubeApi.update_caption env lang cid =
            ([YoutubeApi.UpdCall.updateById (Py.strip (cid.getD ""))],
              Except.error (PyErr.httpError s))) ∧
      (env.updateById (Py.strip (cid.getD "")) = Except.error 404 →
          YoutubeApi.update_caption env lang cid =
            ([YoutubeApi.UpdCall.updateById (Py.strip (cid.getD ""))],
              Except.error (PyErr.typeError YoutubeApi.cacheArityMsg)))) ∧
    (∀ cid : Option String, YoutubeApi.is_valid_caption_id cid = false →
        YoutubeApi.update_caption env lang cid =
          ([], Except.error (PyErr.typeError YoutubeApi.cacheArityMsg))) ∧
    (YoutubeApi.searchByLang env (Config.normalize_language_code lang) =
        ([], Except.error (PyErr.typeError YoutubeApi.cacheArityMsg))) ∧
    (∀ items, items.find? (fun it => Py.lower it.2 =
            Py.lower (Config.normalize_language_code lang)) = none →
        YoutubeApi.searchByLangGivenList env (Config.normalize_language_code lang)
            (Except.ok items) =
          (YoutubeApi.UpdCall.listCall :: (YoutubeApi.uploadFallback env).1,
            (YoutubeApi.uploadFallback env).2) ∧
        (YoutubeApi.uploadFallback env).1 = [YoutubeApi.UpdCall.insertCall]) := by
  refine ⟨?_, ?_, ?_, ?_⟩
  · intro cid hval
    refine ⟨?_, ?_, ?_⟩
    · intro hok
      unfold YoutubeApi.update_caption
      simp only [hval, if_true]
      rw [hok]
    · intro s hs h404
      unfold YoutubeApi.update_caption
      simp only [hval, if_true]
      rw [hs]
      simp [h404]
    · intro h404
      unfold YoutubeApi.update_caption
      simp only [hval, if_true]
      rw [h404]
      simp [searchByLang_staged_raises]
  · intro cid hval
    unfold YoutubeApi.update_caption
    simp only [hval]
    rfl
  · exact searchByLang_staged_raises env _
  · intro items hfind
    constructor
    · rw [searchByLangGivenList_ok env _ items, hfind]
    · rcases hi : env.insertRes with u | sErr
      · simp [YoutubeApi.uploadFallback, hi]
      · simp [YoutubeApi.uploadFallback, hi]

/-- Witness for C4: stored id "dead" 404s, and the fallback search then
crashes with the arity TypeError instead of finding "cap-en". -/
theorem c4_witness :
    YoutubeApi.is_valid_caption_id (some "dead") = true ∧
    YoutubeApi.update_caption Fixtures.updEnv "en" (some "dead") =
      ([YoutubeApi.UpdCall.updateById "dead"],
        Except.error (PyErr.typeError YoutubeApi.cacheArityMsg)) := by
  constructor
  · decide
  · have h := ((c4_update_fallback_search_unreachable Fixtures.updEnv "en").1 (some "dead")
      (by decide)).2.2 (by rfl)
    rw [h]
    rfl

/-- C6 (code bug evidence): the executor functions of
src/src/youtube_api.py have no dry-run branch at all.  With a real
translator `upload_caption` always performs the `captions().insert`
network mutation; called from `project_handler.sync_project`, the
dry-run boolean lands in the translator parameter, so the very first
planned upload raises `AttributeError` before logging any intent and
before any call — it does not short-circuit after logging. -/
theorem c6_dry_run_has_no_short_circuit :
    (∀ (b : Bool) (ir : String → Except String Unit) (videoId lang path : String),
        YoutubeApi.runUploads ir b videoId [(lang, path)] =
          ([], Except.error YoutubeApi.attrErrorBoolGet)) ∧
    (∀ (videoId lang : String),
        YoutubeApi.uploadCaptionTrace YoutubeApi.TranslatorArg.translator (Except.ok ())
            videoId lang =
          ([YoutubeApi.NetCall.captionsInsert videoId (Config.normalize_language_code lang)],
            Except.ok ())) := by
  have hupload : ∀ (b : Bool) (res : Except String Unit) (videoId lang : String),
      YoutubeApi.uploadCaptionTrace (YoutubeApi.TranslatorArg.pyBool b) res videoId lang =
        ([], Except.error YoutubeApi.attrErrorBoolGet) := by
    intro b res videoId lang
    by_cases h1 : Config.normalizePrints lang = true
    · simp [YoutubeApi.uploadCaptionTrace, YoutubeApi.translatorGet, h1]
    · by_cases h2 : Config.validate_language_code (Config.normalize_language_code lang) = true
      · simp [YoutubeApi.uploadCaptionTrace, YoutubeApi.translatorGet, h1, h2]
      · simp [YoutubeApi.uploadCaptionTrace, YoutubeApi.translatorGet, h1, h2]
  constructor
  · intro b ir videoId lang path
    simp only [YoutubeApi.runUploads, hupload]
  · intro videoId lang
    by_cases h1 : Config.normalizePrints lang = true
    · by_cases h2 : Config.validate_language_code (Config.normalize_language_code lang) = true
      · simp [YoutubeApi.uploadCaptionTrace, YoutubeApi.translatorGet, h1, h2]
      · simp [YoutubeApi.uploadCaptionTrace, YoutubeApi.translatorGet, h1, h2]
    · by_cases h2 : Config.validate_language_code (Config.normalize_language_code lang) = true
      · simp [YoutubeApi.uploadCaptionTrace, YoutubeApi.translatorGet, h1, h2]
      · simp [YoutubeApi.uploadCaptionTrace, YoutubeApi.translatorGet, h1, h2]

/-- C7 (code bug evidence): `confirm_quota` computes a projected cost of
zero for every input and returns proceed=true without prompting, because
its lookups use the keys UPLOAD/UPDATE/DELETE while the only
`QUOTA_COSTS` table in the repository is keyed by API call names such as
`captions.insert` (which cost 400/450/50). -/
theorem c7_confirm_quota_cost_always_zero :
    (∀ (answer : String) (uploads updates deletes : Nat),
        Quota.confirm_quota answer uploads updates deletes =
          { totalCost := 0, prompted := false, proceed := true }) ∧
    Quota.dictGet Quota.QUOTA_COSTS "captions.insert" 0 = 400 ∧
    Quota.dictGet Quota.QUOTA_COSTS "captions.update" 0 = 450 ∧
    Quota.dictGet Quota.QUOTA_COSTS "captions.delete" 0 = 50 ∧
    Quota.dictGet Quota.QUOTA_COSTS "UPLOAD" 0 = 0 ∧
    Quota.dictGet Quota.QUOTA_COSTS "UPDATE" 0 = 0 ∧
    Quota.dictGet Quota.QUOTA_COSTS "DELETE" 0 = 0 := by
  refine ⟨?_, by decide, by decide, by decide, by decide, by decide, by decide⟩
  intro answer u p d
  have h1 : Quota.dictGet Quota.QUOTA_COSTS "UPLOAD" 0 = 0 := by decide
  have h2 : Quota.dictGet Quota.QUOTA_COSTS "UPDATE" 0 = 0 := by decide
  have h3 : Quota.dictGet Quota.QUOTA_COSTS "DELETE" 0 = 0 := by decide
  unfold Quota.confirm_quota
  rw [h1, h2, h3]
  simp

/-- C8 (code bug evidence): the read is a hit exactly on a fresh
well-formed entry; the miss paths whose exception is in the except
tuple — missing file, unreadable file (IOError), invalid JSON, missing
`timestamp` key — and the expired entry do return None; but a stored
file that is valid JSON with a malformed, non-string or timezone-aware
timestamp, a non-object top level, or an undecodable encoding raises
ValueError/TypeError/UnicodeDecodeError to the caller, because the
except tuple lists only json.JSONDecodeError, KeyError and IOError —
contradicting the claim and the docstring of the function (Returns None
if the cache is invalid or missing). -/
theorem c8_cache_read_raises_on_malformed {α : Type} :
    (∀ (stored : Cache.StoredEntry α) (now : Int) (p : α),
        Cache.get_from_cache stored now = Except.ok (some p) ↔
          ∃ t, stored = Cache.StoredEntry.entry t p ∧
            now ≤ t + Cache.CACHE_DURATION) ∧
    (∀ now : Int,
        Cache.get_from_cache (Cache.StoredEntry.missing : Cache.StoredEntry α) now =
          Except.ok none ∧
        Cache.get_from_cache (Cache.StoredEntry.unreadable : Cache.StoredEntry α) now =
          Except.ok none ∧
        Cache.get_from_cache (Cache.StoredEntry.notJson : Cache.StoredEntry α) now =
          Except.ok none ∧
        Cache.get_from_cache (Cache.StoredEntry.noTimestampKey : Cache.StoredEntry α) now =
          Except.ok none) ∧
    (∀ (now t : Int) (p : α),
        Cache.get_from_cache (Cache.StoredEntry.entry t p) now =
          if now - t > Cache.CACHE_DURATION then Except.ok none
          else Except.ok (some p)) ∧
    (∀ now : Int,
        Cache.get_from_cache (Cache.StoredEntry.timestampMalformed : Cache.StoredEntry α) now =
          Except.error (PyErr.valueError "Invalid isoformat string") ∧
        Cache.get_from_cache (Cache.StoredEntry.timestampNotString : Cache.StoredEntry α) now =
          Except.error (PyErr.typeError "fromisoformat: argument must be str") ∧
        Cache.get_from_cache (Cache.StoredEntry.jsonNotDict : Cache.StoredEntry α) now =
          Except.error (PyErr.typeError "list indices must be integers or slices, not str") ∧
        Cache.get_from_cache (Cache.StoredEntry.badEncoding : Cache.StoredEntry α) now =
          Except.error PyErr.unicodeDecodeError ∧
        ∀ (t : Int) (p : α),
          Cache.get_from_cache (Cache.StoredEntry.timestampAware t p) now =
            Except.error
              (PyErr.typeError "cannot subtract offset-naive and offset-aware datetimes")) := by
  refine ⟨?_, ?_, ?_, ?_⟩
  · intro stored now p
    cases stored with
    | missing => simp [Cache.get_from_cache]
    | unreadable => simp [Cache.get_from_cache]
    | notJson => simp [Cache.get_from_cache]
    | badEncoding => simp [Cache.get_from_cache]
    | jsonNotDict => simp [Cache.get_from_cache]
    | noTimestampKey => simp [Cache.get_from_cache]
    | timestampNotString => simp [Cache.get_from_cache]
    | timestampMalformed => simp [Cache.get_from_cache]
    | timestampAware t d => simp [Cache.get_from_cache]
    | entryNoData t => simp [Cache.get_from_cache]
    | entry t d =>
      unfold Cache.get_from_cache
      simp only [Cache.CACHE_DURATION]
      by_cases hc : now - t > 3600
      · rw [if_pos hc]
        constructor
        · intro h
          injection h with h1
          simp at h1
        · rintro ⟨t2, ht2, hle⟩
          injection ht2 with h1 h2
          subst h1
          exact absurd hle (by omega)
      · rw [if_neg hc]
        constructor
        · intro h
          injection h with h1
          injection h1 with h2
          exact ⟨t, by rw [h2], by omega⟩
        · rintro ⟨t2, ht2, _⟩
          injection ht2 with h1 h2
          rw [h2]
  · intro now
    exact ⟨rfl, rfl, rfl, rfl⟩
  · intro now t p
    rfl
  · intro now
    exact ⟨rfl, rfl, rfl, rfl, fun t p => rfl⟩

/-- C9: the cache key is order-independent — permuting the keyword
arguments leaves `generate_cache_key` unchanged, whatever deterministic
hash is applied. -/
theorem c9_cache_key_order_independent (md5hex : String → String) (op : String)
    (k1 k2 : List (String × String)) (h : k1.Perm k2) :
    Cache.generate_cache_key md5hex op k1 = Cache.generate_cache_key md5hex op k2 := by
  have hsort : Cache.sortKwargs k1 = Cache.sortKwargs k2 := by
    unfold Cache.sortKwargs
    exact List.eq_of_perm_of_sorted
      ((List.perm_insertionSort Cache.pairLe k1).trans
        (h.trans (List.perm_insertionSort Cache.pairLe k2).symm))
      (List.sorted_insertionSort Cache.pairLe k1)
      (List.sorted_insertionSort Cache.pairLe k2)
  unfold Cache.generate_cache_key
  rw [hsort]

/-- Witness for C9: swapping two keyword arguments produces the same
key. -/
theorem c9_witness :
    Cache.generate_cache_key id "get_channel_videos" [("a", "1"), ("b", "2")] =
      Cache.generate_cache_key id "get_channel_videos" [("b", "2"), ("a", "1")] :=
  c9_cache_key_order_independent id "get_channel_videos" _ _
    (List.Perm.swap ("b", "2") ("a", "1") [])

/-- C10 (code bug evidence): the truthiness asymmetry the claim
describes is in the source text — after a cache read,
`get_channel_videos` tests `if cached_videos:` so an empty cached list
falls through to the paginated fetch, a non-empty one is a hit with no
call, and `list_captions` tests `is not None` so any cached payload,
empty included, is a hit with no call — but neither function ever
reaches that test: both begin with `get_from_cache(cache_key,
translator)`, two positional arguments to the one-parameter function in
src/cache.py, so every call raises TypeError before any hit test, fetch
or quota increment.  (src/tests/test_cache.py itself calls
`get_from_cache` with two arguments, marking the one-parameter
signature as the slip.) -/
theorem c10_cache_read_raises_before_hit_test :
    (∀ (cache : Cache.StoredEntry (List (String × String))) (now : Int)
        (pages : List (List (String × String))),
        YoutubeApi.get_channel_videos cache now pages =
          Except.error (PyErr.typeError YoutubeApi.cacheArityMsg)) ∧
    (∀ (α : Type) (cache : Cache.StoredEntry α) (now : Int)
        (remote : Except Nat α) (videoId : String),
        YoutubeApi.list_captions cache now remote videoId =
          Except.error (PyErr.typeError YoutubeApi.cacheArityMsg)) ∧
    (∀ (pages : List (List (String × String))),
        YoutubeApi.get_channel_videos_after_read (some []) pages =
          YoutubeApi.fetchAllPages pages) ∧
    (∀ (x : String × String) (xs : List (String × String))
        (pages : List (List (String × String))),
        YoutubeApi.get_channel_videos_after_read (some (x :: xs)) pages =
          (x :: xs, [])) ∧
    (∀ (α : Type) (r : α) (remote : Except Nat α) (videoId : String),
        YoutubeApi.list_captions_after_read (some r) remote videoId =
          Except.ok (r, [])) := by
  refine ⟨fun c n p => rfl, fun α c n r v => rfl, fun p => rfl,
    fun x xs p => rfl, fun α r rem v => rfl⟩

/-- Witness for the amended C2: the flat name `v1_en.srt` with known
video id `v1` parses to (v1, en) via the first-underscore split. -/
theorem c2_witness :
    FileHandler.scanFlatFile [['v', '1']] ['v', '1', '_', 'e', 'n', '.', 's', 'r', 't'] =
      some (['v', '1'], ['e', 'n']) := by
  apply (c2_flat_scan_first_underscore [['v', '1']]
    ['v', '1', '_', 'e', 'n', '.', 's', 'r', 't'] ['v', '1'] ['e', 'n']).mpr
  exact ⟨by decide, by decide, by decide, by decide⟩
